import Mathlib

set_option maxHeartbeats 1000000

/- A shallow embedding of the snapshot-diff pipeline
   (src/snapshot_diff.cpp together with src/json_writer.h).

   Conventions used throughout:
   * A text line is represented by the list of its whitespace-separated
     tokens (a `List String`), matching the C++ tokenization performed by
     `istringstream` extraction into `std::string`; a line carries no
     trailing whitespace (`getline` strips the newline), so after its last
     token is extracted the stream has eofbit set.  A subsequent `>>` then
     fails at sentry construction without touching its target, so the
     target RETAINS its previous value; only an extraction whose sentry
     succeeds first erases the target.  The per-line parsing loops reuse
     one `std::string` variable, so on lines with fewer than three tokens
     the retained earlier token is what the code goes on to use; the short
     line models (`payloadStr`, `extractThree`) spell this out per token
     count.
   * A raw page file is a `List (List String)` (its lines, in order); the
     whole raw directory is a list of such files.
   * A bucket file handle is modelled by its textual content (`List String`,
     one element per written line); filesystem conditions that can make an
     open fail are passed in as explicit boolean/oracle parameters.
   * `std::stoi` is modelled by `stoi : String → Option Int`, where `none`
     models a thrown exception (no digits, or out of `int` range).
   * Events produced by GenerateJSON are modelled by the `ChangeEvent`
     inductive; the size/atime/ctime/mtime enrichment fields coming from the
     external `lstat` collaborator (MakeStatsJsonMap) are elided, since they
     are environment lookups outside the pipeline logic.
-/

/-- Models `s.find(c) != std::string::npos` on a `std::string`. -/
def strContains (s : String) (c : Char) : Bool :=
  s.data.contains c

/-- Finds the first `'_'` in the character list; returns the characters
before it and after it, or `none` when there is no underscore. -/
def splitOpAux : List Char → Option (List Char × List Char)
  | [] => none
  | c :: rest =>
    if c = '_' then some ([], rest)
    else (splitOpAux rest).map (fun p => (c :: p.1, p.2))

/-- Models lines 617-619 of snapshot_diff.cpp:
`int split = op.find("_"); entrytype = op.substr(0, split);
optype = op.substr(split + 1, op.length());`.
When there is no underscore, `find` returns `npos`, which the `int`
narrowing turns into `-1`: `substr(0, -1)` and `substr(0, length)` then both
yield the whole string, so both components are `op` itself. -/
def splitOp (op : String) : String × String :=
  match splitOpAux op.data with
  | none => (op, op)
  | some p => (String.mk p.1, String.mk p.2)

/-- Models the C++ conversion applied in
`new JsonBool(cond ? "true" : "false")` (snapshot_diff.cpp lines 641-644 and
667): the argument is a `const char*` string literal while the `JsonBool`
constructor takes `bool`, so the literal undergoes a pointer-to-bool
conversion.  A string literal is never a null pointer, hence the stored
boolean is `true` no matter which literal was chosen. -/
def cstrToBool (_s : String) : Bool :=
  true

/-- The JSON-facing change event assembled by GenerateJSON (one element of
the emitted JSON array).  The metadata fields filled in by MakeStatsJsonMap
are elided (they come from the external stat collaborator). -/
inductive ChangeEvent where
  | delete (objectType : String) (path : String)
  | rename (pathOld : String) (pathNew : String)
  | entry (etype : String) (created modified stat xattr : Bool) (path : String)
  | symlink (created : Bool) (target : Option String) (stat : Bool) (path : String)
deriving DecidableEq, Repr

/-- Models the per-record classification of GenerateJSON
(snapshot_diff.cpp lines 607-671) on one line of the serialized file,
making every unchecked `diffLineList[i]` vector access explicit:
`List.get?` returns `none` exactly when the C++ access reads out of bounds,
so an outer `none` marks an out-of-bounds (undefined-behavior) read.
An inner `none` is a line whose entry type is neither FILE, DIR nor SYM,
which the code silently skips. -/
def classifyLineChecked (ts : List String) : Option (Option ChangeEvent) :=
  match ts.get? 0, ts.get? 1 with
  | some op, some path =>
    let ep := splitOp op
    let entrytype := ep.1
    let optype := ep.2
    if entrytype = "FILE" ∨ entrytype = "DIR" then
      if optype = "DELETE" then
        some (some (.delete (if entrytype = "FILE" then "file" else "dir") path))
      else if optype = "RENAME" then
        match ts.get? 2 with
        | some p2 => some (some (.rename path p2))
        | none => none
      else
        some (some (.entry (if entrytype = "FILE" then "file" else "dir")
          (cstrToBool (if strContains optype 'C' then "true" else "false"))
          (cstrToBool (if strContains optype 'M' then "true" else "false"))
          (cstrToBool (if strContains optype 'S' then "true" else "false"))
          (cstrToBool (if strContains optype 'X' then "true" else "false"))
          path))
    else if entrytype = "SYM" then
      if optype = "DELETE" then
        some (some (.delete "symlink" path))
      else if strContains optype 'C' then
        match ts.get? 2 with
        | some tgt =>
          some (some (.symlink true (some tgt)
            (cstrToBool (if strContains optype 'S' then "true" else "false")) path))
        | none => none
      else
        some (some (.symlink false none
          (cstrToBool (if strContains optype 'S' then "true" else "false")) path))
    else some none
  | _, _ => none

/-- The classification as a total function, meaningful on lines whose
accesses stay in bounds (`classifyLineChecked` is `some`). -/
def classifyLine (ts : List String) : Option ChangeEvent :=
  (classifyLineChecked ts).getD none

/-- Models `std::stoi` on an extracted token (which contains no whitespace):
an optional sign followed by a longest digit prefix; `none` models the
`std::invalid_argument` exception (no digits) or the `std::out_of_range`
exception (converted value outside the `int` range). -/
def stoi (s : String) : Option Int :=
  let core : List Char → Option Int := fun cs =>
    let ds := cs.takeWhile Char.isDigit
    if ds.isEmpty then none
    else some ((ds.foldl (fun a c => a * 10 + (c.toNat - 48)) 0 : Nat) : Int)
  let signed : Option Int :=
    match s.data with
    | '-' :: rest => (core rest).map (fun n => -n)
    | '+' :: rest => core rest
    | cs => core cs
  signed.bind (fun v =>
    if v < -2147483648 ∨ 2147483647 < v then none else some v)

/-- Models `typedef map<int, fstream*> BucketFileMap` during the Bucketizer
stage: an association list from normalized level to the lines written to
that level's bucket file, kept sorted by key to mirror the ordered
iteration of `std::map`. -/
abbrev BucketFileMap : Type :=
  List (Int × List String)

/-- Models `if (!buckets.count(level)) { ... buckets[level] = ... }`
(snapshot_diff.cpp lines 398-411): inserts the key with a freshly created
(empty) bucket file when absent, preserving the key order of `std::map`. -/
def ensureKey (m : BucketFileMap) (k : Int) : BucketFileMap :=
  match m with
  | [] => [(k, [])]
  | (k2, vs) :: rest =>
    if k < k2 then (k, []) :: (k2, vs) :: rest
    else if k = k2 then (k2, vs) :: rest
    else (k2, vs) :: ensureKey rest k

/-- Models `*buckets[level] << str << endl` for a key already in the map:
appends one line to that key's bucket file. -/
def appendVal (m : BucketFileMap) (k : Int) (v : String) : BucketFileMap :=
  match m with
  | [] => []
  | (k2, vs) :: rest =>
    if k = k2 then (k2, vs ++ [v]) :: rest
    else (k2, vs) :: appendVal rest k v

/-- Models the reconstruction of the remainder of a raw line after the level
and objectId tokens (snapshot_diff.cpp lines 413-420): the third token, then
each further token preceded by a tab.  The code reuses the single variable
`s` for all extractions on the line, and a failed extraction retains the
previous value, so when the line has fewer than three tokens the first
`outputLine << s` writes the token `s` already holds: the second token of a
two-token line, the first (and only) token of a one-token line, and the
empty string for an empty line (the very first extraction erases `s` before
failing). -/
def payloadStr (ts : List String) : String :=
  match ts with
  | [] => ""
  | [t0] => t0
  | [_, t1] => t1
  | _ => String.intercalate "\t" (ts.drop 2)

/-- The two reserved payload values checked on line 423 of
snapshot_diff.cpp. -/
def isSentinelPayload (s : String) : Bool :=
  s == "EOB" || s == "EOF"

/-- Models `level = stoi(s) + 513` (snapshot_diff.cpp line 394) on a raw
line's first token (the empty string when the line is empty, since the very
first extraction erases `s`).  `none` models an execution that does not
complete normally: the uncaught `stoi` exception (no digits, or out of
`int` range), or the undefined behavior of the signed `int` addition
`stoi(s) + 513` overflowing when `stoi(s) > INT_MAX - 513`. -/
def lineLevel (ts : List String) : Option Int :=
  (stoi (ts.getD 0 "")).bind
    (fun v => if 2147483647 - 513 < v then none else some (v + 513))

/-- Models the per-raw-file loop of BucketizeDiff (snapshot_diff.cpp lines
387-429): for each line parse the level (`stoi` + 513), create the level's
bucket on first sight (this happens before the sentinel check), then either
append the reconstructed payload or — on a sentinel payload — seek the raw
file to its end, which ignores all remaining lines of that file.  `none`
models the uncaught `stoi` exception or the overflowing level addition. -/
def bucketizeFile : BucketFileMap → List (List String) → Option BucketFileMap
  | m, [] => some m
  | m, ts :: rest =>
    match lineLevel ts with
    | none => none
    | some level =>
      let m2 := ensureKey m level
      let str := payloadStr ts
      if isSentinelPayload str then some m2
      else bucketizeFile (appendVal m2 level str) rest

/-- Runs `bucketizeFile` over the raw files `0, 1, ..., readNum-1` in
order, as the outer loop of BucketizeDiff does. -/
def bucketizeAll : BucketFileMap → List (List (List String)) → Option BucketFileMap
  | m, [] => some m
  | m, f :: fs =>
    match bucketizeFile m f with
    | none => none
    | some m2 => bucketizeAll m2 fs

/-- Models BucketizeDiff on the raw directory, starting from the empty
bucket map built in GetSnapshotDiff. -/
def BucketizeDiff (files : List (List (List String))) : Option BucketFileMap :=
  bucketizeAll [] files

/-- The lines of the serialized_diff file: concatenation of every bucket's
content in map-iteration (ascending key) order, as written by the loop on
lines 470-476 of snapshot_diff.cpp. -/
def bucketLines (m : BucketFileMap) : List String :=
  (m.map Prod.snd).flatten

/-- The character content `SerialDiffFile` actually receives from the loop
`SerialDiffFile << itr->second->rdbuf()` (snapshot_diff.cpp line 472) over
the bucket contents in ascending key order.  Every line written to a bucket
is followed by `endl`, so a bucket's stream holds zero characters exactly
when its line list is empty.  Inserting a streambuf that yields zero
characters sets `failbit` on the output stream, and once the stream is in a
failed state every later insertion's sentry fails and inserts nothing — so
the output is truncated at the first empty bucket (the loop itself keeps
running and still closes every handle). -/
def writtenBucketLines : List (List String) → List String
  | [] => []
  | c :: rest => if c.isEmpty then [] else c ++ writtenBucketLines rest

/-- Models SerializeBuckets (snapshot_diff.cpp lines 455-480).  `canCreate`
is the environment condition "the output file serialized_diff could be
created".  Returns the C++ boolean result, the content written to
serialized_diff (the bucket concatenation truncated at the first empty
bucket, per `writtenBucketLines`), and the bucket map afterwards, where
each value is `none` when that bucket's handle was closed, deleted and
nulled, and `some` of its still-open handle (represented by its content)
otherwise.  On the failure path the function returns before touching any
bucket handle. -/
def SerializeBuckets (canCreate : Bool) (m : BucketFileMap) :
    Bool × List String × List (Int × Option (List String)) :=
  if canCreate then
    (true, writtenBucketLines (m.map Prod.snd), m.map (fun p => (p.1, none)))
  else
    (false, [], m.map (fun p => (p.1, some p.2)))

/-- The payload lines of one raw file that BucketizeDiff actually writes to
bucket files: the tab-joined suffixes of the lines strictly before the
file's first sentinel line. -/
def keptPayloads : List (List String) → List String
  | [] => []
  | ts :: rest =>
    let s := payloadStr ts
    if isSentinelPayload s then []
    else s :: keptPayloads rest

/-- The lines of one raw file that BucketizeDiff processes at all: every
line up to and including the file's first sentinel line. -/
def processedLines : List (List String) → List (List String)
  | [] => []
  | ts :: rest =>
    if isSentinelPayload (payloadStr ts) then [ts]
    else ts :: processedLines rest

/-- The outcome of one `snapDiffFile.open` attempt in OpenStreamUnreliable,
together with the `errno` the environment reports on failure. -/
inductive OpenResult where
  | opened
  | enoent
  | other
deriving DecidableEq, Repr

/-- `#define MAX_RETRIES 10` (snapshot_diff.cpp line 33). -/
def MAX_RETRIES : Nat :=
  10

/-- Models the `do { open ... } while (numRetries++ < MAX_RETRIES)` loop of
OpenStreamUnreliable (snapshot_diff.cpp lines 191-207).  `f n` is the
environment's answer to the `n`-th open attempt (counting from 0);
`fuel` is `MAX_RETRIES - numRetries`, the number of loop-continuation
checks that can still succeed.  Returns the total number of open attempts
made and whether the stream ended up open. -/
def openLoop (f : Nat → OpenResult) : Nat → Nat → Nat × Bool
  | attempt, fuel =>
    match f attempt, fuel with
    | .opened, _ => (attempt + 1, true)
    | .other, _ => (attempt + 1, false)
    | .enoent, 0 => (attempt + 1, false)
    | .enoent, fuel2 + 1 => openLoop f (attempt + 1) fuel2

/-- Models OpenStreamUnreliable (snapshot_diff.cpp lines 186-216): returns
the number of open attempts made and the C++ result (0 on successful open,
1 on failure). -/
def OpenStreamUnreliable (f : Nat → OpenResult) : Nat × Nat :=
  let r := openLoop f 0 MAX_RETRIES
  (r.1, if r.2 then 0 else 1)

/-- Models the loop `for (int i = 0; i < 3; ++i) { currCookie = s;
lineStream >> s; }` of ReadRawDiff (snapshot_diff.cpp lines 316-319) on one
line, returning the pair `(s, currCookie)` it leaves behind.  Both start
empty; a failed extraction retains the target's previous value, so on a
one-token line both end up holding that token, on a two-token line both end
up holding the second token, and on a line of three or more tokens `s` is
the third token and `currCookie` the second (the loop never reads past the
third token). -/
def extractThree : List String → String × String
  | [] => ("", "")
  | [t0] => (t0, t0)
  | [_, t1] => (t1, t1)
  | _ :: t1 :: t2 :: _ => (t2, t1)

/-- Models the line-parsing loop of ReadRawDiff over one locally copied
page (snapshot_diff.cpp lines 311-331).  Each line is parsed by the
three-extraction loop (`extractThree`), after which `s` is compared with
the sentinels — so a short line whose last token is `EOB`/`EOF` is a
sentinel line, the retained token standing in for the missing third.
On `EOB` the file is closed (so no further line is parsed) and the running
`startPoint` is left as it was; on `EOF` likewise, additionally flagging the
end of the stream; otherwise `startPoint` is updated to `currCookie`.
Returns the running cookie afterwards and `none` when no sentinel was
reached, `some false` on `EOB`, `some true` on `EOF`. -/
def scanPageLines : String → List (List String) → String × Option Bool
  | cookie, [] => (cookie, none)
  | cookie, ts :: rest =>
    let s := (extractThree ts).1
    if s = "EOB" then (cookie, some false)
    else if s = "EOF" then (cookie, some true)
    else scanPageLines (extractThree ts).2 rest

/-- A line on which the three-extraction loop leaves in `s` neither of the
two sentinels. -/
abbrev notSentinelLine (ts : List String) : Prop :=
  (extractThree ts).1 ≠ "EOB" ∧ (extractThree ts).1 ≠ "EOF"

/-- Models the two nested loops of GenerateJSON (snapshot_diff.cpp lines
595-689): lines of the serialized file are consumed one by one, classified
records are collected into the current `diffItems` array, and whenever the
array reaches 1000 items it is flushed as one JSON document; at end of
input the remaining array is flushed only when non-empty.  Returns the
sequence of flushed documents (each the list of its events, in order). -/
def generateJSONDocs : List (List String) → List ChangeEvent → List (List ChangeEvent)
  | [], cur => if cur.isEmpty then [] else [cur]
  | l :: rest, cur =>
    match classifyLine l with
    | none => generateJSONDocs rest cur
    | some e =>
      let cur2 := cur ++ [e]
      if cur2.length = 1000 then cur2 :: generateJSONDocs rest []
      else generateJSONDocs rest cur2

/-- Splits a list of events into consecutive chunks of 1000 (last chunk
possibly shorter, empty input giving no chunks); the first argument is
recursion fuel, adequate whenever it is at least the list's length. -/
def chunksGo : Nat → List ChangeEvent → List (List ChangeEvent)
  | 0, _ => []
  | fuel + 1, es =>
    if es.isEmpty then []
    else es.take 1000 :: chunksGo fuel (es.drop 1000)

/-- No bucket file contains a sentinel line. -/
abbrev NoSentinelBuckets (m : BucketFileMap) : Prop :=
  ∀ p ∈ m, "EOB" ∉ p.2 ∧ "EOF" ∉ p.2

/-- The key set of the bucket map, in iteration order. -/
def mapKeys (m : BucketFileMap) : List Int :=
  m.map Prod.fst

/-- The records for which GenerateJSON additionally reads token 3
(`diffLineList[2]`): a FILE/DIR rename (line 632 of snapshot_diff.cpp) or
a symlink creation (line 663). -/
abbrev needsThird (ts : List String) : Prop :=
  (((splitOp (ts.getD 0 "")).1 = "FILE" ∨ (splitOp (ts.getD 0 "")).1 = "DIR") ∧
      (splitOp (ts.getD 0 "")).2 = "RENAME") ∨
    ((splitOp (ts.getD 0 "")).1 = "SYM" ∧ (splitOp (ts.getD 0 "")).2 ≠ "DELETE" ∧
      strContains (splitOp (ts.getD 0 "")).2 'C' = true)

/-- C1.  The serialized record `SYM_CM /a/link /a/target` (the payload that
the raw line `-2 obj9 SYM_CM /a/link /a/target` contributes to the
serialized file) is mapped by GenerateJSON to a symlink event with
`created = true` but also `stat = true`, although `'S'` does not occur
in the opType token `CM`: the `JsonBool` arguments on lines 641-644 and 667
of snapshot_diff.cpp are the string literals `"true"`/`"false"`, which
convert to `bool` as non-null pointers, so every flag-derived boolean the
code emits is `true` regardless of the flags.  The claim (booleans track
the C/M/S/X flags, and `stat` is `false` for this record) describes the
evident intent of the ternary expressions; the code contradicts it. -/
theorem C1_symlink_flag_booleans_always_true :
    classifyLine ["SYM_CM", "/a/link", "/a/target"] =
      some (.symlink true (some "/a/target") true "/a/link") ∧
    classifyLine ["FILE_M", "/a/b"] =
      some (.entry "file" true true true true "/a/b") := by
  constructor <;> rfl

example : BucketizeDiff [[["0", "a", "FILE_C", "/x"]]] =
    some [(513, ["FILE_C\t/x"])] := by rfl

example : BucketizeDiff [[["0", "a", "EOB"], ["0", "b", "X", "p"]]] =
    some [(513, [])] := by rfl

example : BucketizeDiff [[["-2", "a", "F", "p"], ["7", "b", "G", "q"],
    ["-2", "c", "H"]]] = some [(511, ["F\tp", "H"]), (520, ["G\tq"])] := by rfl

example : OpenStreamUnreliable (fun _ => .enoent) = (11, 1) := by rfl

example : OpenStreamUnreliable (fun _ => .other) = (1, 1) := by rfl

example : OpenStreamUnreliable (fun _ => .opened) = (1, 0) := by rfl

example : scanPageLines "0" [["a", "b", "c", "d"], ["x", "y", "EOB"]] =
    ("b", some false) := by rfl

example :
    generateJSONDocs [["FILE_C", "/a"], ["ZZZ"], ["DIR_DELETE", "/d"]] [] =
      [[.entry "file" true true true true "/a", .delete "dir" "/d"]] := by rfl

lemma openLoop_opened (f : Nat → OpenResult) (a fuel : Nat)
    (h : f a = .opened) : openLoop f a fuel = (a + 1, true) := by
  rw [openLoop.eq_def]
  simp [h]

lemma openLoop_other (f : Nat → OpenResult) (a fuel : Nat)
    (h : f a = .other) : openLoop f a fuel = (a + 1, false) := by
  rw [openLoop.eq_def]
  simp [h]

lemma openLoop_enoent_zero (f : Nat → OpenResult) (a : Nat)
    (h : f a = .enoent) : openLoop f a 0 = (a + 1, false) := by
  rw [openLoop.eq_def]
  simp [h]

lemma openLoop_enoent_step (f : Nat → OpenResult) (a fuel : Nat)
    (h : f a = .enoent) : openLoop f a (fuel + 1) = openLoop f (a + 1) fuel := by
  rw [openLoop.eq_def]
  simp [h]

lemma openLoop_all_enoent (f : Nat → OpenResult) (h : ∀ n, f n = .enoent) :
    ∀ fuel a, openLoop f a fuel = (a + fuel + 1, false) := by
  intro fuel
  induction fuel with
  | zero => intro a; rw [openLoop_enoent_zero f a (h a)]
  | succ fuel ih =>
    intro a
    rw [openLoop_enoent_step f a fuel (h a), ih (a + 1)]
    congr 1
    omega

lemma openLoop_other_at (f : Nat → OpenResult) :
    ∀ n fuel a, n ≤ fuel → (∀ m, m < n → f (a + m) = .enoent) →
      f (a + n) = .other → openLoop f a fuel = (a + n + 1, false) := by
  intro n
  induction n with
  | zero =>
    intro fuel a _ _ hother
    simp only [Nat.add_zero] at hother
    rw [openLoop_other f a fuel hother]
  | succ k ih =>
    intro fuel a hle hen hother
    obtain ⟨fuel2, rfl⟩ : ∃ fuel2, fuel = fuel2 + 1 :=
      ⟨fuel - 1, by omega⟩
    have h0 : f a = .enoent := by
      have := hen 0 (by omega)
      simpa using this
    rw [openLoop_enoent_step f a fuel2 h0]
    have hrec := ih fuel2 (a + 1) (by omega)
      (fun m hm => by
        have := hen (m + 1) (by omega)
        rwa [show a + (m + 1) = a + 1 + m by omega] at this)
      (by rwa [show a + 1 + k = a + (k + 1) by omega])
    rw [hrec]
    congr 1
    omega

/-- C3 (counterexample).  When the output file serialized_diff cannot be
created, SerializeBuckets returns through the early-failure path on lines
463-466 of snapshot_diff.cpp before the loop that closes, deletes and nulls
the bucket handles, so the single bucket of this concrete map is left open
(`some` content, not `none`): the function does not release every bucket
handle regardless of outcome. -/
theorem C3_counterexample_unreleased_on_failure :
    SerializeBuckets false [((0 : Int), ["x"])] =
      (false, [], [((0 : Int), some ["x"])]) ∧
    some ["x"] ≠ (none : Option (List String)) := by
  exact ⟨rfl, by simp⟩

/-- C3 (amended).  SerializeBuckets fails exactly when the output file
serialized_diff cannot be created, and whenever it succeeds it closes,
deletes and nulls every bucket handle in the map; on its single failure
path, however, the bucket handles are left untouched (still open). -/
theorem C3_fails_only_on_output_create_and_releases_on_success :
    ∀ (canCreate : Bool) (m : BucketFileMap),
      ((SerializeBuckets canCreate m).1 = false ↔ canCreate = false) ∧
      (canCreate = true →
        (SerializeBuckets canCreate m).2.2 =
          m.map (fun p => (p.1, (none : Option (List String))))) := by
  intro c m
  cases c <;> simp [SerializeBuckets]

/-- C3 (witness): the amended theorem applied to a concrete one-bucket map
on the success path. -/
theorem C3_witness :
    (SerializeBuckets true [((0 : Int), ["x"])]).2.2 =
      [((0 : Int), (none : Option (List String)))] := by
  have h :=
    (C3_fails_only_on_output_create_and_releases_on_success true
      [((0 : Int), ["x"])]).2 rfl
  simpa using h

/-- C4 (counterexample).  With a not-found condition on every open attempt,
OpenStreamUnreliable makes 11 open attempts before failing, not 10: the
loop body runs once, and the `numRetries++ < MAX_RETRIES` guard then admits
ten further iterations. -/
theorem C4_counterexample_eleven_attempts :
    OpenStreamUnreliable (fun _ => OpenResult.enoent) = (11, 1) ∧
    (11 : Nat) ≠ 10 := by
  exact ⟨rfl, by decide⟩

/-- C4 (amended).  If every open attempt fails with a not-found condition,
OpenStreamUnreliable fails after exactly MAX_RETRIES + 1 = 11 open attempts
(the initial attempt plus ten retries) and not before; and if the first
non-not-found outcome is a failure with any other errno, the function fails
immediately after that attempt, with no further retries. -/
theorem C4_retry_bound :
    (∀ f : Nat → OpenResult, (∀ n, f n = .enoent) →
      OpenStreamUnreliable f = (MAX_RETRIES + 1, 1)) ∧
    (∀ (f : Nat → OpenResult) (n : Nat), n ≤ MAX_RETRIES →
      (∀ m, m < n → f m = .enoent) → f n = .other →
      OpenStreamUnreliable f = (n + 1, 1)) := by
  constructor
  · intro f h
    have h2 := openLoop_all_enoent f h MAX_RETRIES 0
    simp [OpenStreamUnreliable, h2]
  · intro f n hle hen hother
    have h2 := openLoop_other_at f n MAX_RETRIES 0 hle
      (fun m hm => by simpa using hen m hm) (by simpa using hother)
    simp [OpenStreamUnreliable, h2]

/-- C4 (witness): the two halves of the retry-bound theorem applied to the
constant not-found environment and to an environment whose very first
attempt fails with a different errno. -/
theorem C4_witness :
    OpenStreamUnreliable (fun _ => OpenResult.enoent) = (11, 1) ∧
    OpenStreamUnreliable (fun _ => OpenResult.other) = (1, 1) := by
  refine ⟨C4_retry_bound.1 _ (fun _ => rfl), ?_⟩
  exact C4_retry_bound.2 (fun _ => OpenResult.other) 0 (by omega)
    (fun m hm => absurd hm (Nat.not_lt_zero m)) rfl

lemma noSentinelBuckets_nil : NoSentinelBuckets [] := by
  intro p hp
  simp at hp

lemma ensureKey_noSent {m : BucketFileMap} {k : Int}
    (h : NoSentinelBuckets m) : NoSentinelBuckets (ensureKey m k) := by
  induction m with
  | nil =>
    intro p hp
    simp [ensureKey] at hp
    simp [hp]
  | cons hd rest ih =>
    obtain ⟨k2, vs⟩ := hd
    intro p hp
    rw [ensureKey] at hp
    split_ifs at hp with h1 h2
    · rcases List.mem_cons.mp hp with h3 | h3
      · simp [h3]
      · exact h (p := p) h3
    · exact h (p := p) hp
    · rcases List.mem_cons.mp hp with h3 | h3
      · exact h (p := p) (by simp [h3])
      · exact ih (fun q hq => h q (List.mem_cons_of_mem _ hq)) p h3

lemma appendVal_noSent {m : BucketFileMap} {k : Int} {v : String}
    (hv1 : v ≠ "EOB") (hv2 : v ≠ "EOF")
    (h : NoSentinelBuckets m) : NoSentinelBuckets (appendVal m k v) := by
  induction m with
  | nil =>
    intro p hp
    simp [appendVal] at hp
  | cons hd rest ih =>
    obtain ⟨k2, vs⟩ := hd
    intro p hp
    rw [appendVal] at hp
    split_ifs at hp with h1
    · rcases List.mem_cons.mp hp with h3 | h3
      · subst h3
        have hh := h (k2, vs) (by simp)
        constructor
        · intro hmem
          rcases List.mem_append.mp hmem with h4 | h4
          · exact hh.1 h4
          · exact hv1 (List.mem_singleton.mp h4).symm
        · intro hmem
          rcases List.mem_append.mp hmem with h4 | h4
          · exact hh.2 h4
          · exact hv2 (List.mem_singleton.mp h4).symm
      · exact h p (List.mem_cons_of_mem _ h3)
    · rcases List.mem_cons.mp hp with h3 | h3
      · exact h p (by simp [h3])
      · exact ih (fun q hq => h q (List.mem_cons_of_mem _ hq)) p h3

lemma isSentinelPayload_false {s : String}
    (h : isSentinelPayload s = false) : s ≠ "EOB" ∧ s ≠ "EOF" := by
  simp [isSentinelPayload] at h
  exact h

lemma bucketizeFile_noSent :
    ∀ (lines : List (List String)) (m m2 : BucketFileMap),
      bucketizeFile m lines = some m2 →
      NoSentinelBuckets m → NoSentinelBuckets m2 := by
  intro lines
  induction lines with
  | nil =>
    intro m m2 h hm
    rw [bucketizeFile] at h
    cases h
    exact hm
  | cons ts rest ih =>
    intro m m2 h hm
    rw [bucketizeFile] at h
    cases hlev : lineLevel ts with
    | none => rw [hlev] at h; cases h
    | some level =>
      rw [hlev] at h
      simp only at h
      by_cases hs : isSentinelPayload (payloadStr ts) = true
      · rw [if_pos hs] at h
        cases h
        exact ensureKey_noSent hm
      · rw [if_neg hs] at h
        simp only [Bool.not_eq_true] at hs
        have hne := isSentinelPayload_false hs
        exact ih _ _ h (appendVal_noSent hne.1 hne.2 (ensureKey_noSent hm))

lemma bucketizeAll_noSent :
    ∀ (fs : List (List (List String))) (m m2 : BucketFileMap),
      bucketizeAll m fs = some m2 →
      NoSentinelBuckets m → NoSentinelBuckets m2 := by
  intro fs
  induction fs with
  | nil =>
    intro m m2 h hm
    rw [bucketizeAll] at h
    cases h
    exact hm
  | cons f rest ih =>
    intro m m2 h hm
    rw [bucketizeAll] at h
    cases hf : bucketizeFile m f with
    | none => rw [hf] at h; cases h
    | some m1 =>
      rw [hf] at h
      exact ih _ _ h (bucketizeFile_noSent f m m1 hf hm)

/-- C5.  First half: whenever the Bucketizer completes on a set of raw
files, no bucket file contains the line `EOB` or the line `EOF` — sentinel
payloads are filtered on line 423 of snapshot_diff.cpp before any write.
Second half: once a line whose reconstructed payload is a sentinel is
reached, the raw file is seeked to its end (line 427), so the remaining
lines of that file contribute nothing: bucketizing the file equals
bucketizing its prefix that ends at the first sentinel line. -/
theorem C5_sentinels_dropped_and_rest_ignored :
    (∀ (files : List (List (List String))) (m : BucketFileMap),
      BucketizeDiff files = some m →
      ∀ p ∈ m, "EOB" ∉ p.2 ∧ "EOF" ∉ p.2) ∧
    (∀ (m : BucketFileMap) (pre : List (List String)) (sent : List String)
        (post : List (List String)),
      (payloadStr sent = "EOB" ∨ payloadStr sent = "EOF") →
      bucketizeFile m (pre ++ sent :: post) = bucketizeFile m (pre ++ [sent])) := by
  constructor
  · intro files m h
    exact bucketizeAll_noSent files [] m h noSentinelBuckets_nil
  · intro m pre sent post hsent
    induction pre generalizing m with
    | nil =>
      simp only [List.nil_append]
      rw [bucketizeFile, bucketizeFile]
      cases lineLevel sent with
      | none => rfl
      | some level =>
        have hs : isSentinelPayload (payloadStr sent) = true := by
          rcases hsent with h1 | h1 <;> simp [isSentinelPayload, h1]
        simp [hs]
    | cons ts pre ih =>
      simp only [List.cons_append]
      rw [bucketizeFile, bucketizeFile]
      cases lineLevel ts with
      | none => rfl
      | some level =>
        simp only
        by_cases hs : isSentinelPayload (payloadStr ts) = true
        · rw [if_pos hs, if_pos hs]
        · rw [if_neg hs, if_neg hs]
          exact ih _

/-- C5 (witness): the first half applied to a one-file run producing one
bucket, and the second half applied to a concrete file whose second line is
a sentinel followed by a further line. -/
theorem C5_witness :
    ("EOB" ∉ ["FILE_C\t/x"] ∧ "EOF" ∉ ["FILE_C\t/x"]) ∧
    bucketizeFile [] ([["1", "b", "F"]] ++ ["0", "a", "EOB"] :: [["9", "z", "Q", "w"]]) =
      bucketizeFile [] ([["1", "b", "F"]] ++ [["0", "a", "EOB"]]) := by
  constructor
  · exact C5_sentinels_dropped_and_rest_ignored.1 [[["0", "a", "FILE_C", "/x"]]]
      [(513, ["FILE_C\t/x"])] rfl (513, ["FILE_C\t/x"]) (List.mem_singleton.mpr rfl)
  · exact C5_sentinels_dropped_and_rest_ignored.2 [] [["1", "b", "F"]]
      ["0", "a", "EOB"] [["9", "z", "Q", "w"]] (Or.inl rfl)

lemma ensureKey_keys_mem :
    ∀ (m : BucketFileMap) (k a : Int),
      a ∈ mapKeys (ensureKey m k) ↔ a = k ∨ a ∈ mapKeys m := by
  intro m k
  induction m with
  | nil =>
    intro a
    simp [ensureKey, mapKeys]
  | cons hd rest ih =>
    obtain ⟨k2, vs⟩ := hd
    intro a
    rw [ensureKey]
    split_ifs with h1 h2
    · simp [mapKeys]
    · subst h2
      simp [mapKeys]
    · simp only [mapKeys, List.map_cons, List.mem_cons] at *
      rw [ih a]
      tauto

lemma appendVal_keys :
    ∀ (m : BucketFileMap) (k : Int) (v : String),
      mapKeys (appendVal m k v) = mapKeys m := by
  intro m k v
  induction m with
  | nil => rfl
  | cons hd rest ih =>
    obtain ⟨k2, vs⟩ := hd
    rw [appendVal]
    split_ifs with h1
    · rfl
    · simp only [mapKeys, List.map_cons] at *
      rw [ih]

lemma ensureKey_sorted {m : BucketFileMap} {k : Int}
    (h : (mapKeys m).Pairwise (· < ·)) :
    (mapKeys (ensureKey m k)).Pairwise (· < ·) := by
  induction m with
  | nil =>
    simp [ensureKey, mapKeys]
  | cons hd rest ih =>
    obtain ⟨k2, vs⟩ := hd
    simp only [mapKeys, List.map_cons, List.pairwise_cons] at h
    rw [ensureKey]
    split_ifs with h1 h2
    · simp only [mapKeys, List.map_cons, List.pairwise_cons]
      refine ⟨?_, h.1, h.2⟩
      intro b hb
      rcases List.mem_cons.mp hb with h3 | h3
      · omega
      · have := h.1 b h3
        omega
    · simp only [mapKeys, List.map_cons, List.pairwise_cons]
      exact h
    · simp only [mapKeys, List.map_cons, List.pairwise_cons]
      constructor
      · intro b hb
        rcases (ensureKey_keys_mem rest k b).mp hb with h3 | h3
        · omega
        · exact h.1 b h3
      · exact ih h.2

lemma bucketizeFile_sorted :
    ∀ (lines : List (List String)) (m m2 : BucketFileMap),
      bucketizeFile m lines = some m2 →
      (mapKeys m).Pairwise (· < ·) → (mapKeys m2).Pairwise (· < ·) := by
  intro lines
  induction lines with
  | nil =>
    intro m m2 h hm
    rw [bucketizeFile] at h
    cases h
    exact hm
  | cons ts rest ih =>
    intro m m2 h hm
    rw [bucketizeFile] at h
    cases hlev : lineLevel ts with
    | none => rw [hlev] at h; cases h
    | some level =>
      rw [hlev] at h
      simp only at h
      by_cases hs : isSentinelPayload (payloadStr ts) = true
      · rw [if_pos hs] at h
        cases h
        exact ensureKey_sorted hm
      · rw [if_neg hs] at h
        refine ih _ _ h ?_
        rw [appendVal_keys]
        exact ensureKey_sorted hm

lemma bucketizeAll_sorted :
    ∀ (fs : List (List (List String))) (m m2 : BucketFileMap),
      bucketizeAll m fs = some m2 →
      (mapKeys m).Pairwise (· < ·) → (mapKeys m2).Pairwise (· < ·) := by
  intro fs
  induction fs with
  | nil =>
    intro m m2 h hm
    rw [bucketizeAll] at h
    cases h
    exact hm
  | cons f rest ih =>
    intro m m2 h hm
    rw [bucketizeAll] at h
    cases hf : bucketizeFile m f with
    | none => rw [hf] at h; cases h
    | some m1 =>
      rw [hf] at h
      exact ih _ _ h (bucketizeFile_sorted f m m1 hf hm)

lemma bucketLines_mem_split :
    ∀ (m : BucketFileMap) (l : Int) (vs : List String),
      (l, vs) ∈ m → ∃ a b, bucketLines m = a ++ vs ++ b := by
  intro m l vs
  induction m with
  | nil => intro h; simp at h
  | cons hd rest ih =>
    obtain ⟨k2, ws⟩ := hd
    intro h
    rcases List.mem_cons.mp h with h1 | h1
    · injection h1 with hk hv
      refine ⟨[], bucketLines rest, ?_⟩
      simp [bucketLines, hv]
    · obtain ⟨a, b, hab⟩ := ih h1
      refine ⟨ws ++ a, b, ?_⟩
      simp [bucketLines] at hab ⊢
      rw [hab]

lemma sorted_two_split :
    ∀ (m : BucketFileMap) (l1 l2 : Int) (vs1 vs2 : List String),
      (mapKeys m).Pairwise (· < ·) →
      (l1, vs1) ∈ m → (l2, vs2) ∈ m → l1 < l2 →
      ∃ a b c, bucketLines m = a ++ vs1 ++ b ++ vs2 ++ c := by
  intro m l1 l2 vs1 vs2
  induction m with
  | nil => intro _ h1; simp at h1
  | cons hd rest ih =>
    obtain ⟨k, ws⟩ := hd
    intro hsort hm1 hm2 hlt
    simp only [mapKeys, List.map_cons, List.pairwise_cons] at hsort
    rcases List.mem_cons.mp hm1 with he1 | he1
    · injection he1 with hk1 hv1
      subst hk1
      subst hv1
      rcases List.mem_cons.mp hm2 with he2 | he2
      · injection he2 with hk2
        omega
      · obtain ⟨a, b, hab⟩ := bucketLines_mem_split rest l2 vs2 he2
        refine ⟨[], a, b, ?_⟩
        simp [bucketLines] at hab ⊢
        rw [hab]
    · rcases List.mem_cons.mp hm2 with he2 | he2
      · injection he2 with hk2
        subst hk2
        have : l1 ∈ mapKeys rest := by
          simp only [mapKeys, List.mem_map]
          exact ⟨(l1, vs1), he1, rfl⟩
        have := hsort.1 l1 this
        omega
      · obtain ⟨a, b, c, habc⟩ := ih hsort.2 he1 he2 hlt
        refine ⟨ws ++ a, b, c, ?_⟩
        simp [bucketLines] at habc ⊢
        rw [habc]

lemma writtenBucketLines_prefix :
    ∀ cs : List (List String), ∃ rest, cs.flatten = writtenBucketLines cs ++ rest := by
  intro cs
  induction cs with
  | nil => exact ⟨[], rfl⟩
  | cons c rest ih =>
    rw [writtenBucketLines]
    by_cases hc : c.isEmpty = true
    · rw [if_pos hc]
      exact ⟨(c :: rest).flatten, rfl⟩
    · rw [if_neg hc]
      obtain ⟨r, hr⟩ := ih
      refine ⟨r, ?_⟩
      rw [List.flatten_cons, hr, List.append_assoc]

lemma writtenBucketLines_of_no_empty :
    ∀ m : BucketFileMap, (∀ p ∈ m, p.2 ≠ []) →
      writtenBucketLines (m.map Prod.snd) = bucketLines m := by
  intro m
  induction m with
  | nil => intro _; rfl
  | cons hd rest ih =>
    obtain ⟨k, c⟩ := hd
    intro h
    have hc : ¬c.isEmpty = true := by
      simpa using h (k, c) (by simp)
    simp only [List.map_cons, writtenBucketLines, if_neg hc, bucketLines,
      List.flatten_cons]
    rw [ih (fun q hq => h q (List.mem_cons_of_mem _ hq))]
    rfl

/-- C2 (counterexample).  The serialized output is not always the full
ascending concatenation: inserting an empty bucket's stream into
serialized_diff inserts zero characters, which sets `failbit` on the output
stream and silently drops every later bucket.  An empty bucket is reachable
— the sentinel line `-513 a EOB` creates bucket 0 and writes nothing to it
— so on this run the bucket map holds records at levels 513 < 518, yet the
serialized output is empty: the level-513 record does not appear at all,
let alone before the level-518 one, refuting the claim as stated. -/
theorem C2_counterexample_empty_bucket_truncates_output :
    BucketizeDiff [[["0", "b", "X", "p"], ["5", "c", "Y", "q"],
        ["-513", "a", "EOB"]]] =
      some [((0 : Int), []), ((513 : Int), ["X\tp"]), ((518 : Int), ["Y\tq"])] ∧
    (SerializeBuckets true
      [((0 : Int), []), ((513 : Int), ["X\tp"]), ((518 : Int), ["Y\tq"])]).2.1 = [] ∧
    "X\tp" ∉ (SerializeBuckets true
      [((0 : Int), []), ((513 : Int), ["X\tp"]), ((518 : Int), ["Y\tq"])]).2.1 := by
  refine ⟨rfl, rfl, ?_⟩
  intro h
  simp [SerializeBuckets, writtenBucketLines] at h

/-- C2 (amended).  The serialized_diff content is always a prefix of the
full ascending concatenation of the buckets (so among the records that do
appear, lower levels wholly precede higher levels); and whenever no bucket
in the map is empty — in particular on any run in which every created
bucket received a payload — the output is the whole concatenation, and for
any two levels l1 < l2 present in the bucket map it decomposes as a prefix,
all of bucket l1, a middle part, all of bucket l2, and a suffix.  When some
bucket is empty, the zero-character `rdbuf` insertion sets `failbit` and
every later bucket (including all higher-level records) is silently
dropped from the output. -/
theorem C2_serialized_order_without_empty_buckets :
    (∀ m : BucketFileMap,
      ∃ rest, bucketLines m = (SerializeBuckets true m).2.1 ++ rest) ∧
    (∀ (files : List (List (List String))) (m : BucketFileMap)
      (l1 l2 : Int) (vs1 vs2 : List String),
      BucketizeDiff files = some m →
      (∀ p ∈ m, p.2 ≠ []) →
      (l1, vs1) ∈ m → (l2, vs2) ∈ m → l1 < l2 →
      ∃ a b c, (SerializeBuckets true m).2.1 = a ++ vs1 ++ b ++ vs2 ++ c) := by
  constructor
  · intro m
    have h := writtenBucketLines_prefix (m.map Prod.snd)
    simpa [SerializeBuckets, bucketLines] using h
  · intro files m l1 l2 vs1 vs2 h hne hm1 hm2 hlt
    have hsort : (mapKeys m).Pairwise (· < ·) :=
      bucketizeAll_sorted files [] m h (by simp [mapKeys])
    have hsplit := sorted_two_split m l1 l2 vs1 vs2 hsort hm1 hm2 hlt
    have hfull := writtenBucketLines_of_no_empty m hne
    simpa [SerializeBuckets, hfull] using hsplit

/-- C2 (witness): a two-level run where the raw file interleaves levels
-1 and 0 and no bucket is empty; the serialized output decomposes around
the two buckets. -/
theorem C2_witness :
    ∃ a b c, (SerializeBuckets true
        [((512 : Int), ["F\tp"]), ((513 : Int), ["G\tq"])]).2.1 =
      a ++ ["F\tp"] ++ b ++ ["G\tq"] ++ c := by
  exact C2_serialized_order_without_empty_buckets.2
    [[["-1", "a", "F", "p"], ["0", "b", "G", "q"]]]
    [((512 : Int), ["F\tp"]), ((513 : Int), ["G\tq"])]
    512 513 ["F\tp"] ["G\tq"] rfl (by simp) (by simp) (by simp) (by omega)

lemma bucketizeFile_keys :
    ∀ (lines : List (List String)) (m m2 : BucketFileMap),
      bucketizeFile m lines = some m2 →
      ∀ a, a ∈ mapKeys m2 ↔
        (a ∈ mapKeys m ∨ ∃ ts ∈ processedLines lines, lineLevel ts = some a) := by
  intro lines
  induction lines with
  | nil =>
    intro m m2 h a
    rw [bucketizeFile] at h
    cases h
    simp [processedLines]
  | cons ts rest ih =>
    intro m m2 h a
    rw [bucketizeFile] at h
    cases hlev : lineLevel ts with
    | none => rw [hlev] at h; cases h
    | some level =>
      rw [hlev] at h
      simp only at h
      by_cases hs : isSentinelPayload (payloadStr ts) = true
      · rw [if_pos hs] at h
        cases h
        rw [processedLines, if_pos hs]
        rw [ensureKey_keys_mem]
        simp only [List.mem_singleton]
        constructor
        · rintro (h1 | h1)
          · exact Or.inr ⟨ts, rfl, by rw [hlev, h1]⟩
          · exact Or.inl h1
        · rintro (h1 | ⟨ts2, ht2, hl2⟩)
          · exact Or.inr h1
          · subst ht2
            rw [hlev] at hl2
            exact Or.inl (Option.some.injEq .. ▸ hl2).symm
      · rw [if_neg hs] at h
        rw [processedLines, if_neg hs]
        have h2 := ih _ _ h a
        rw [appendVal_keys, ensureKey_keys_mem] at h2
        rw [h2]
        simp only [List.mem_cons]
        constructor
        · rintro ((h1 | h1) | ⟨ts2, ht2, hl2⟩)
          · exact Or.inr ⟨ts, Or.inl rfl, by rw [hlev, h1]⟩
          · exact Or.inl h1
          · exact Or.inr ⟨ts2, Or.inr ht2, hl2⟩
        · rintro (h1 | ⟨ts2, ht2 | ht2, hl2⟩)
          · exact Or.inl (Or.inr h1)
          · subst ht2
            rw [hlev] at hl2
            exact Or.inl (Or.inl (Option.some.injEq .. ▸ hl2).symm)
          · exact Or.inr ⟨ts2, ht2, hl2⟩

lemma bucketizeAll_keys :
    ∀ (fs : List (List (List String))) (m m2 : BucketFileMap),
      bucketizeAll m fs = some m2 →
      ∀ a, a ∈ mapKeys m2 ↔
        (a ∈ mapKeys m ∨
          ∃ ts ∈ (fs.map processedLines).flatten, lineLevel ts = some a) := by
  intro fs
  induction fs with
  | nil =>
    intro m m2 h a
    rw [bucketizeAll] at h
    cases h
    simp
  | cons f rest ih =>
    intro m m2 h a
    rw [bucketizeAll] at h
    cases hf : bucketizeFile m f with
    | none => rw [hf] at h; cases h
    | some m1 =>
      rw [hf] at h
      have h2 := ih _ _ h a
      have h3 := bucketizeFile_keys f m m1 hf a
      rw [h2, h3]
      simp only [List.map_cons, List.flatten_cons]
      constructor
      · rintro ((h1 | ⟨ts, ht, hl⟩) | ⟨ts, ht, hl⟩)
        · exact Or.inl h1
        · exact Or.inr ⟨ts, List.mem_append.mpr (Or.inl ht), hl⟩
        · exact Or.inr ⟨ts, List.mem_append.mpr (Or.inr ht), hl⟩
      · rintro (h1 | ⟨ts, ht, hl⟩)
        · exact Or.inl (Or.inl h1)
        · rcases List.mem_append.mp ht with h4 | h4
          · exact Or.inl (Or.inr ⟨ts, h4, hl⟩)
          · exact Or.inr ⟨ts, h4, hl⟩

/-- C9 (counterexample).  A raw file whose only line is the sentinel line
`0 a EOB` makes BucketizeDiff create a bucket file for level 513, although
no payload (non-sentinel) line with that level exists anywhere: the bucket
is created by the `buckets.count(level)` check on line 398 of
snapshot_diff.cpp, which runs before the sentinel test on line 423.  This
refutes the claim that a bucket file is created only upon the first payload
observed for its level. -/
theorem C9_counterexample_bucket_from_sentinel :
    BucketizeDiff [[["0", "a", "EOB"]]] = some [((513 : Int), [])] ∧
    keptPayloads [["0", "a", "EOB"]] = ([] : List String) := by
  exact ⟨rfl, rfl⟩

/-- C9 (amended).  Whenever the Bucketizer completes, the bucket map holds
exactly one bucket per distinct normalized level (its key list is strictly
sorted, hence duplicate-free), and a level has a bucket exactly when some
processed line — a line at or before its raw file's first sentinel line,
the sentinel line included — carries that normalized level: creation is
lazy, on the first processed line for the level, but it happens before the
sentinel check, so a sentinel line also creates its level's bucket. -/
theorem C9_one_bucket_per_processed_level :
    ∀ (files : List (List (List String))) (m : BucketFileMap),
      BucketizeDiff files = some m →
      (mapKeys m).Pairwise (· < ·) ∧ (mapKeys m).Nodup ∧
      ∀ a, a ∈ mapKeys m ↔
        ∃ ts ∈ (files.map processedLines).flatten, lineLevel ts = some a := by
  intro files m h
  have hsort : (mapKeys m).Pairwise (· < ·) :=
    bucketizeAll_sorted files [] m h (by simp [mapKeys])
  refine ⟨hsort, hsort.imp (fun hab => ne_of_lt hab), ?_⟩
  intro a
  have h2 := bucketizeAll_keys files [] m h a
  simpa [mapKeys] using h2

/-- C9 (witness): the amended theorem applied to a one-file, one-payload
run; level 513 has a bucket because the single processed line carries it. -/
theorem C9_witness :
    (513 : Int) ∈ mapKeys [((513 : Int), ["F\tp"])] := by
  refine ((C9_one_bucket_per_processed_level [[["0", "a", "F", "p"]]]
    [((513 : Int), ["F\tp"])] rfl).2.2 513).mpr ?_
  exact ⟨["0", "a", "F", "p"], by decide, by decide⟩

lemma ensureKey_bucketLines :
    ∀ (m : BucketFileMap) (k : Int),
      bucketLines (ensureKey m k) = bucketLines m := by
  intro m k
  induction m with
  | nil => rfl
  | cons hd rest ih =>
    obtain ⟨k2, vs⟩ := hd
    rw [ensureKey]
    split_ifs with h1 h2
    · simp [bucketLines]
    · rfl
    · simp only [bucketLines, List.map_cons, List.flatten_cons] at ih ⊢
      rw [ih]

lemma ensureKey_mem_self (m : BucketFileMap) (k : Int) :
    k ∈ mapKeys (ensureKey m k) :=
  (ensureKey_keys_mem m k k).mpr (Or.inl rfl)

lemma appendVal_bucketLines :
    ∀ (m : BucketFileMap) (k : Int) (v : String),
      k ∈ mapKeys m →
      (bucketLines (appendVal m k v)).Perm (bucketLines m ++ [v]) := by
  intro m k v
  induction m with
  | nil => intro h; simp [mapKeys] at h
  | cons hd rest ih =>
    obtain ⟨k2, vs⟩ := hd
    intro h
    rw [appendVal]
    split_ifs with h1
    · simp only [bucketLines, List.map_cons, List.flatten_cons]
      rw [List.append_assoc, List.append_assoc]
      exact List.perm_append_comm.append_left vs
    · have h2 : k ∈ mapKeys rest := by
        simp only [mapKeys, List.map_cons, List.mem_cons] at h
        rcases h with h3 | h3
        · exact absurd h3 h1
        · exact h3
      simp only [bucketLines, List.map_cons, List.flatten_cons]
      have h3 := (ih h2).append_left vs
      refine h3.trans ?_
      rw [List.append_assoc]
      exact List.Perm.refl _

lemma bucketizeFile_perm :
    ∀ (lines : List (List String)) (m m2 : BucketFileMap),
      bucketizeFile m lines = some m2 →
      (bucketLines m2).Perm (bucketLines m ++ keptPayloads lines) := by
  intro lines
  induction lines with
  | nil =>
    intro m m2 h
    rw [bucketizeFile] at h
    cases h
    simp [keptPayloads]
  | cons ts rest ih =>
    intro m m2 h
    rw [bucketizeFile] at h
    cases hlev : lineLevel ts with
    | none => rw [hlev] at h; cases h
    | some level =>
      rw [hlev] at h
      simp only at h
      by_cases hs : isSentinelPayload (payloadStr ts) = true
      · rw [if_pos hs] at h
        cases h
        rw [keptPayloads]
        simp only [hs, if_true, List.append_nil, ensureKey_bucketLines]
        exact List.Perm.refl _
      · rw [if_neg hs] at h
        have hperm := ih _ _ h
        have happ := appendVal_bucketLines (ensureKey m (level)) (level)
          (payloadStr ts) (ensureKey_mem_self m (level))
        rw [ensureKey_bucketLines] at happ
        have hkept : keptPayloads (ts :: rest) =
            payloadStr ts :: keptPayloads rest := by
          rw [keptPayloads]
          simp [hs]
        rw [hkept]
        refine hperm.trans ?_
        refine (happ.append_right _).trans ?_
        rw [List.append_assoc, List.singleton_append]

lemma bucketizeAll_perm :
    ∀ (fs : List (List (List String))) (m m2 : BucketFileMap),
      bucketizeAll m fs = some m2 →
      (bucketLines m2).Perm (bucketLines m ++ (fs.map keptPayloads).flatten) := by
  intro fs
  induction fs with
  | nil =>
    intro m m2 h
    rw [bucketizeAll] at h
    cases h
    simp
  | cons f rest ih =>
    intro m m2 h
    rw [bucketizeAll] at h
    cases hf : bucketizeFile m f with
    | none => rw [hf] at h; cases h
    | some m1 =>
      rw [hf] at h
      have h1 := bucketizeFile_perm f m m1 hf
      have h2 := ih _ _ h
      refine h2.trans ?_
      simp only [List.map_cons, List.flatten_cons]
      refine (h1.append_right _).trans ?_
      rw [List.append_assoc]

/-- C6 (counterexample).  A raw file whose first line is the sentinel line
`0 a EOB` and whose second line is a payload line refutes the literal
claim: the single bucket's content is empty, while the multiset of the raw
file's lines with the leading level and objectId tokens removed is
{EOB, X\x09p} — the sentinel line is dropped and the line after it is
ignored, so the two multisets differ. -/
theorem C6_counterexample_sentinel_and_ignored_lines :
    BucketizeDiff [[["0", "a", "EOB"], ["0", "b", "X", "p"]]] =
      some [((513 : Int), [])] ∧
    ((bucketLines [((513 : Int), [])] : List String) : Multiset String) ≠
      (([["0", "a", "EOB"], ["0", "b", "X", "p"]].map payloadStr :
        List String) : Multiset String) := by
  refine ⟨rfl, ?_⟩
  intro h
  have hperm := Multiset.coe_eq_coe.mp h
  have hlen := hperm.length_eq
  simp [bucketLines] at hlen

/-- C6 (amended).  Whenever the Bucketizer completes, the multiset of lines
across all bucket files equals the multiset of the raw files' payloads
(tokens after level and objectId, tab-joined) restricted to the lines
strictly before each raw file's first sentinel line: lines at or after a
sentinel line — the sentinel itself and everything the end-seek on line 427
of snapshot_diff.cpp skips — contribute nothing. -/
theorem C6_lossless_bucketing_up_to_sentinels :
    ∀ (files : List (List (List String))) (m : BucketFileMap),
      BucketizeDiff files = some m →
      ((bucketLines m : List String) : Multiset String) =
        (((files.map keptPayloads).flatten : List String) : Multiset String) := by
  intro files m h
  refine Multiset.coe_eq_coe.mpr ?_
  have := bucketizeAll_perm files [] m h
  simpa [bucketLines] using this

/-- C6 (witness): the amended theorem applied to a two-file run with an
interleaved level and a sentinel-terminated first file. -/
theorem C6_witness :
    ((bucketLines [((512 : Int), ["H\tr"]), ((513 : Int), ["F\tp"])] :
        List String) : Multiset String) =
      ((([[["0", "a", "F", "p"], ["0", "x", "EOB"]],
          [["-1", "b", "H", "r"]]].map keptPayloads).flatten :
        List String) : Multiset String) := by
  exact C6_lossless_bucketing_up_to_sentinels
    [[["0", "a", "F", "p"], ["0", "x", "EOB"]], [["-1", "b", "H", "r"]]]
    [((512 : Int), ["H\tr"]), ((513 : Int), ["F\tp"])] rfl

/-- C8 (counterexample).  Page lines `a b c d` then `x y EOB`, with initial
running cookie `0`: the parsing loop extracts exactly three tokens per line,
so the stream of parsed tokens is a, b, c, x, y, EOB; the token three
positions before the sentinel is `c`, and the last parsed line (the
sentinel line) is `x y EOB`.  The cookie the code actually carries to the
next page is `b` — the second token of the last non-sentinel line, left in
`startPoint` by the `else` branch on line 329 of snapshot_diff.cpp — which
is neither `c` nor any token of the last parsed line: the claimed "value
carried three tokens before the sentinel in the last parsed line" does not
describe the code's cookie. -/
theorem C8_counterexample_cookie_position :
    (scanPageLines "0" [["a", "b", "c", "d"], ["x", "y", "EOB"]]).1 = "b" ∧
    "b" ≠ "c" ∧ "b" ∉ (["x", "y", "EOB"] : List String) := by
  exact ⟨rfl, by decide, by decide⟩

/-- C8 (amended).  When a parsed line leaves the sentinel `EOB` in `s`
(its third token, or — failed extractions retaining the previous value —
its last token when it has fewer than three), the cookie used to address
the next page is the running cookie at that moment: the value `currCookie`
retained from the most recent non-sentinel parsed line (that line's second
token, or its only token when it has a single one; the sentinel line's own
tokens are not consulted, and the lines after it are not parsed); and
every parsed non-sentinel line updates the running cookie in place to its
`currCookie` value, carrying it forward to subsequent lines and pages. -/
theorem C8_cookie_from_last_nonsentinel_line :
    (∀ (c : String) (pre : List (List String)) (d e : List String)
        (post : List (List String)),
      (∀ ts ∈ pre, notSentinelLine ts) → notSentinelLine d →
      (extractThree e).1 = "EOB" →
      scanPageLines c (pre ++ d :: e :: post) =
        ((extractThree d).2, some false)) ∧
    (∀ (c : String) (ts : List String) (rest : List (List String)),
      notSentinelLine ts →
      scanPageLines c (ts :: rest) = scanPageLines (extractThree ts).2 rest) := by
  have hstep : ∀ (c : String) (ts : List String) (rest : List (List String)),
      notSentinelLine ts →
      scanPageLines c (ts :: rest) = scanPageLines (extractThree ts).2 rest := by
    intro c ts rest hts
    rw [scanPageLines]
    simp only [if_neg hts.1, if_neg hts.2]
  constructor
  · intro c pre d e post hpre hd he
    induction pre generalizing c with
    | nil =>
      simp only [List.nil_append]
      rw [hstep c d (e :: post) hd]
      rw [scanPageLines]
      rw [he]
      rw [if_pos rfl]
    | cons ts pre ih =>
      simp only [List.cons_append]
      rw [hstep c ts _ (hpre ts (by simp))]
      exact ih _ (fun q hq => hpre q (List.mem_cons_of_mem _ hq))
  · exact hstep

/-- C8 (witness): the amended theorem on a concrete page: a data line
`1 b F /x` followed by the sentinel line `2 y EOB` yields next-page cookie
`b`, and a single non-sentinel line updates the running cookie in place. -/
theorem C8_witness :
    scanPageLines "0" [["1", "b", "F", "/x"], ["2", "y", "EOB"]] =
      ("b", some false) ∧
    scanPageLines "9" [["1", "b", "F", "/x"]] = scanPageLines "b" [] := by
  constructor
  · have h := C8_cookie_from_last_nonsentinel_line.1 "0" []
      ["1", "b", "F", "/x"] ["2", "y", "EOB"] []
      (fun q hq => absurd hq (List.not_mem_nil q)) (by decide) rfl
    simpa using h
  · have h := C8_cookie_from_last_nonsentinel_line.2 "9"
      ["1", "b", "F", "/x"] [] (by decide)
    simpa using h

lemma chunksGo_nil_input : ∀ f, chunksGo f [] = [] := by
  intro f
  cases f <;> simp [chunksGo]

lemma generateJSONDocs_eq_chunksGo :
    ∀ (lines : List (List String)) (cur : List ChangeEvent) (f : Nat),
      cur.length < 1000 →
      (cur ++ lines.filterMap classifyLine).length ≤ f →
      generateJSONDocs lines cur = chunksGo f (cur ++ lines.filterMap classifyLine) := by
  intro lines
  induction lines with
  | nil =>
    intro cur f hcur hf
    simp only [List.filterMap_nil, List.append_nil] at hf ⊢
    rw [generateJSONDocs]
    by_cases hc : cur = []
    · subst hc
      simp [chunksGo_nil_input]
    · rw [if_neg (by simpa using hc)]
      obtain ⟨f2, rfl⟩ : ∃ f2, f = f2 + 1 := by
        refine ⟨f - 1, ?_⟩
        have : 0 < cur.length := List.length_pos.mpr hc
        omega
      rw [chunksGo]
      rw [if_neg (by simpa using hc)]
      rw [List.take_of_length_le (by omega), List.drop_eq_nil_of_le (by omega)]
      rw [chunksGo_nil_input]
  | cons l rest ih =>
    intro cur f hcur hf
    rw [generateJSONDocs]
    cases hcl : classifyLine l with
    | none =>
      rw [List.filterMap_cons_none hcl] at hf ⊢
      exact ih cur f hcur hf
    | some e =>
      rw [List.filterMap_cons_some hcl] at hf ⊢
      simp only
      have hassoc : cur ++ e :: rest.filterMap classifyLine =
          (cur ++ [e]) ++ rest.filterMap classifyLine := by
        rw [List.append_cons]
      by_cases hfl : (cur ++ [e]).length = 1000
      · rw [if_pos hfl]
        have hfl2 := hfl
        simp only [List.length_append, List.length_singleton] at hfl2
        obtain ⟨f2, rfl⟩ : ∃ f2, f = f2 + 1 := by
          refine ⟨f - 1, ?_⟩
          have hf2 := hf
          rw [hassoc] at hf2
          simp only [List.length_append, List.length_singleton] at hf2
          omega
        rw [hassoc, chunksGo]
        rw [if_neg (by simp)]
        rw [← hfl, List.take_left, List.drop_left]
        have hrest : (([] : List ChangeEvent) ++
            rest.filterMap classifyLine).length ≤ f2 := by
          have hf2 := hf
          rw [hassoc] at hf2
          simp only [List.length_append, List.length_singleton,
            List.nil_append] at hf2 ⊢
          omega
        have := ih [] f2 (by simp) hrest
        rw [List.nil_append] at this
        rw [this]
      · rw [if_neg hfl]
        have hlen2 : (cur ++ [e]).length < 1000 := by
          simp only [List.length_append, List.length_singleton] at hfl ⊢
          omega
        have := ih (cur ++ [e]) f hlen2 (by rw [← hassoc]; exact hf)
        rw [this, hassoc]

lemma chunksGo_length :
    ∀ (f : Nat) (es : List ChangeEvent), es.length ≤ f → es ≠ [] →
      (chunksGo f es).length = (es.length + 999) / 1000 := by
  intro f
  induction f with
  | zero =>
    intro es hle hne
    have : es = [] := List.length_eq_zero.mp (by omega)
    exact absurd this hne
  | succ f ih =>
    intro es hle hne
    rw [chunksGo, if_neg (by simpa using hne)]
    by_cases h1000 : es.length ≤ 1000
    · rw [List.drop_eq_nil_of_le h1000, chunksGo_nil_input]
      have : 0 < es.length := List.length_pos.mpr hne
      simp only [List.length_cons, List.length_nil]
      omega
    · have hdlen : (es.drop 1000).length = es.length - 1000 := by
        simp [List.length_drop]
      have hdne : es.drop 1000 ≠ [] := by
        intro h
        rw [h] at hdlen
        simp at hdlen
        omega
      have := ih (es.drop 1000) (by omega) hdne
      simp only [List.length_cons, this, hdlen]
      omega

lemma chunksGo_mem :
    ∀ (f : Nat) (es : List ChangeEvent) (d : List ChangeEvent),
      es.length ≤ f → d ∈ chunksGo f es → d.length ≤ 1000 ∧ d ≠ [] := by
  intro f
  induction f with
  | zero =>
    intro es d _ hd
    simp [chunksGo] at hd
  | succ f ih =>
    intro es d hle hd
    rw [chunksGo] at hd
    by_cases hne : es.isEmpty = true
    · rw [if_pos hne] at hd
      simp at hd
    · rw [if_neg hne] at hd
      have hesne : es ≠ [] := by simpa using hne
      rcases List.mem_cons.mp hd with h1 | h1
      · subst h1
        constructor
        · simp only [List.length_take]
          omega
        · have : 0 < es.length := List.length_pos.mpr hesne
          intro h
          have := congrArg List.length h
          simp only [List.length_take, List.length_nil] at this
          omega
      · refine ih (es.drop 1000) d ?_ h1
        simp only [List.length_drop]
        omega

lemma chunksGo_last :
    ∀ (f : Nat) (es : List ChangeEvent), es.length ≤ f → es ≠ [] →
      ∃ ds d, chunksGo f es = ds ++ [d] ∧
        d.length = (if es.length % 1000 = 0 then 1000 else es.length % 1000) := by
  intro f
  induction f with
  | zero =>
    intro es hle hne
    have : es = [] := List.length_eq_zero.mp (by omega)
    exact absurd this hne
  | succ f ih =>
    intro es hle hne
    rw [chunksGo, if_neg (by simpa using hne)]
    by_cases h1000 : es.length ≤ 1000
    · rw [List.drop_eq_nil_of_le h1000, chunksGo_nil_input]
      refine ⟨[], es.take 1000, by simp, ?_⟩
      rw [List.take_of_length_le h1000]
      have : 0 < es.length := List.length_pos.mpr hne
      split_ifs with hmod <;> omega
    · have hdlen : (es.drop 1000).length = es.length - 1000 := by
        simp [List.length_drop]
      have hdne : es.drop 1000 ≠ [] := by
        intro h
        rw [h] at hdlen
        simp at hdlen
        omega
      obtain ⟨ds, d, hds, hdl⟩ := ih (es.drop 1000) (by omega) hdne
      refine ⟨es.take 1000 :: ds, d, by simp [hds], ?_⟩
      rw [hdl, hdlen]
      have hmod : (es.length - 1000) % 1000 = es.length % 1000 := by
        omega
      rw [hmod]

/-- C7.  Batch sizing of the Event Mapper: on a serialized input whose
lines are all within token bounds and which holds N > 0 classifiable
records, GenerateJSON writes exactly ceil(N / 1000) JSON documents, every
document holds at most 1000 events and is non-empty (a document is written
only when its batch is non-empty), and the last document holds N mod 1000
events, or 1000 when N is a multiple of 1000. -/
theorem C7_batch_sizing :
    ∀ lines : List (List String),
      (∀ l ∈ lines, (classifyLineChecked l).isSome = true) →
      0 < (lines.filterMap classifyLine).length →
      (generateJSONDocs lines []).length =
        ((lines.filterMap classifyLine).length + 999) / 1000 ∧
      (∀ d ∈ generateJSONDocs lines [], d.length ≤ 1000 ∧ d ≠ []) ∧
      ∃ ds d, generateJSONDocs lines [] = ds ++ [d] ∧
        d.length = (if (lines.filterMap classifyLine).length % 1000 = 0
          then 1000 else (lines.filterMap classifyLine).length % 1000) := by
  intro lines _ hN
  have hne : lines.filterMap classifyLine ≠ [] := by
    intro h
    rw [h] at hN
    simp at hN
  have heq := generateJSONDocs_eq_chunksGo lines []
    (lines.filterMap classifyLine).length (by decide) (by simp)
  rw [List.nil_append] at heq
  rw [heq]
  exact ⟨chunksGo_length _ _ le_rfl hne,
    fun d hd => chunksGo_mem _ _ d le_rfl hd,
    chunksGo_last _ _ le_rfl hne⟩

/-- C7 (witness): a single classifiable record yields one document of one
event; ceil(1/1000) = 1 and 1 mod 1000 = 1. -/
theorem C7_witness :
    (generateJSONDocs [["FILE_C", "/a"]] []).length = 1 ∧
    (generateJSONDocs [["FILE_C", "/a"]] []).length =
      ((([["FILE_C", "/a"]] : List (List String)).filterMap classifyLine).length
        + 999) / 1000 := by
  have h := C7_batch_sizing [["FILE_C", "/a"]] (by decide) (by decide)
  exact ⟨h.1.trans (by decide), h.1⟩

lemma c10_len2 (a b : String) (t : List String) : 2 ≤ (a :: b :: t).length := by
  simp only [List.length_cons]
  omega

/-- C10.  The Event Mapper's unchecked vector accesses stay in bounds
exactly when the line has at least 2 whitespace-separated tokens and, when
the record is a FILE/DIR rename or a symlink creation, at least 3 tokens;
in particular an empty line (an empty token vector) makes the access
`diffLineList[0]` read out of bounds. -/
theorem C10_token_access_bounds :
    (∀ ts : List String, (classifyLineChecked ts).isSome = true ↔
      (2 ≤ ts.length ∧ (needsThird ts → 3 ≤ ts.length))) ∧
    classifyLineChecked [] = none := by
  refine ⟨?_, rfl⟩
  intro ts
  match ts with
  | [] =>
    have h : classifyLineChecked [] = none := rfl
    rw [h]
    simp
  | [a] =>
    have h : classifyLineChecked [a] = none := rfl
    rw [h]
    simp
  | [a, b] =>
    have hshape : classifyLineChecked [a, b] =
      (if (splitOp a).1 = "FILE" ∨ (splitOp a).1 = "DIR" then
        if (splitOp a).2 = "DELETE" then
          some (some (.delete (if (splitOp a).1 = "FILE" then "file" else "dir") b))
        else if (splitOp a).2 = "RENAME" then none
        else
          some (some (.entry (if (splitOp a).1 = "FILE" then "file" else "dir")
            (cstrToBool (if strContains (splitOp a).2 'C' then "true" else "false"))
            (cstrToBool (if strContains (splitOp a).2 'M' then "true" else "false"))
            (cstrToBool (if strContains (splitOp a).2 'S' then "true" else "false"))
            (cstrToBool (if strContains (splitOp a).2 'X' then "true" else "false"))
            b))
      else if (splitOp a).1 = "SYM" then
        if (splitOp a).2 = "DELETE" then some (some (.delete "symlink" b))
        else if strContains (splitOp a).2 'C' then none
        else
          some (some (.symlink false none
            (cstrToBool (if strContains (splitOp a).2 'S' then "true" else "false")) b))
      else some none) := rfl
    have hNT : needsThird [a, b] ↔
        ((((splitOp a).1 = "FILE" ∨ (splitOp a).1 = "DIR") ∧
            (splitOp a).2 = "RENAME") ∨
          ((splitOp a).1 = "SYM" ∧ (splitOp a).2 ≠ "DELETE" ∧
            strContains (splitOp a).2 'C' = true)) := Iff.rfl
    rw [hshape, hNT]
    by_cases h1 : (splitOp a).1 = "FILE" ∨ (splitOp a).1 = "DIR"
    · rw [if_pos h1]
      by_cases h2 : (splitOp a).2 = "DELETE"
      · rw [if_pos h2]
        refine iff_of_true rfl ⟨c10_len2 a b [], fun hP => absurd hP ?_⟩
        rintro (⟨-, hR⟩ | ⟨hS, -, -⟩)
        · exact absurd (h2.symm.trans hR) (by decide)
        · rcases h1 with h1 | h1
          · exact absurd (h1.symm.trans hS) (by decide)
          · exact absurd (h1.symm.trans hS) (by decide)
      · rw [if_neg h2]
        by_cases h3 : (splitOp a).2 = "RENAME"
        · rw [if_pos h3]
          refine iff_of_false (by simp) ?_
          rintro ⟨-, himp⟩
          have h7 := himp (Or.inl ⟨h1, h3⟩)
          simp at h7
        · rw [if_neg h3]
          refine iff_of_true rfl ⟨c10_len2 a b [], fun hP => absurd hP ?_⟩
          rintro (⟨-, hR⟩ | ⟨hS, -, -⟩)
          · exact h3 hR
          · rcases h1 with h1 | h1
            · exact absurd (h1.symm.trans hS) (by decide)
            · exact absurd (h1.symm.trans hS) (by decide)
    · rw [if_neg h1]
      by_cases h4 : (splitOp a).1 = "SYM"
      · rw [if_pos h4]
        by_cases h5 : (splitOp a).2 = "DELETE"
        · rw [if_pos h5]
          refine iff_of_true rfl ⟨c10_len2 a b [], fun hP => absurd hP ?_⟩
          rintro (⟨hFD, -⟩ | ⟨-, hD, -⟩)
          · exact h1 hFD
          · exact hD h5
        · rw [if_neg h5]
          by_cases h6 : strContains (splitOp a).2 'C' = true
          · rw [if_pos h6]
            refine iff_of_false (by simp) ?_
            rintro ⟨-, himp⟩
            have h7 := himp (Or.inr ⟨h4, h5, h6⟩)
            simp at h7
          · rw [if_neg h6]
            refine iff_of_true rfl ⟨c10_len2 a b [], fun hP => absurd hP ?_⟩
            rintro (⟨hFD, -⟩ | ⟨-, -, hC⟩)
            · exact h1 hFD
            · exact h6 hC
      · rw [if_neg h4]
        refine iff_of_true rfl ⟨c10_len2 a b [], fun hP => absurd hP ?_⟩
        rintro (⟨hFD, -⟩ | ⟨hS, -, -⟩)
        · exact h1 hFD
        · exact h4 hS
  | a :: b :: c :: t =>
    have hshape : classifyLineChecked (a :: b :: c :: t) =
      (if (splitOp a).1 = "FILE" ∨ (splitOp a).1 = "DIR" then
        if (splitOp a).2 = "DELETE" then
          some (some (.delete (if (splitOp a).1 = "FILE" then "file" else "dir") b))
        else if (splitOp a).2 = "RENAME" then some (some (.rename b c))
        else
          some (some (.entry (if (splitOp a).1 = "FILE" then "file" else "dir")
            (cstrToBool (if strContains (splitOp a).2 'C' then "true" else "false"))
            (cstrToBool (if strContains (splitOp a).2 'M' then "true" else "false"))
            (cstrToBool (if strContains (splitOp a).2 'S' then "true" else "false"))
            (cstrToBool (if strContains (splitOp a).2 'X' then "true" else "false"))
            b))
      else if (splitOp a).1 = "SYM" then
        if (splitOp a).2 = "DELETE" then some (some (.delete "symlink" b))
        else if strContains (splitOp a).2 'C' then
          some (some (.symlink true (some c)
            (cstrToBool (if strContains (splitOp a).2 'S' then "true" else "false")) b))
        else
          some (some (.symlink false none
            (cstrToBool (if strContains (splitOp a).2 'S' then "true" else "false")) b))
      else some none) := rfl
    rw [hshape]
    have hlen3 : 3 ≤ (a :: b :: c :: t).length := by
      simp only [List.length_cons]
      omega
    split_ifs <;>
      exact iff_of_true rfl ⟨c10_len2 a b (c :: t), fun _ => hlen3⟩

/-- C10 (witness): the bounds characterization applied to a concrete
two-token creation record, whose accesses are in bounds. -/
theorem C10_witness :
    (classifyLineChecked ["FILE_C", "/a"]).isSome = true := by
  refine (C10_token_access_bounds.1 ["FILE_C", "/a"]).mpr ⟨by decide, ?_⟩
  intro hP
  exact absurd hP (by decide)

example : BucketizeDiff [[["5", "obj"]]] = some [((518 : Int), ["obj"])] := by rfl

example : BucketizeDiff [[["5", "EOB"], ["7", "b", "X", "p"]]] =
    some [((518 : Int), [])] := by rfl

example : scanPageLines "0" [["q"], ["x", "EOB"]] = ("q", some false) := by rfl

example : (SerializeBuckets true
    [((0 : Int), []), ((513 : Int), ["X\tp"])]).2.1 = [] := by rfl

example : (SerializeBuckets true
    [((513 : Int), ["X\tp"]), ((518 : Int), ["Y\tq"])]).2.1 =
  ["X\tp", "Y\tq"] := by rfl
